import Mathlib

/-!
# Verification of the LangGraph-essentials tutorial repository

A shallow embedding of the graph-execution model exercised by the tutorial
scripts (parallel execution, conditional edges, memory/checkpointing,
interrupts, and the L2 email workflow), together with theorems settling the
frozen claims about the repository.

JavaScript strings stored in the `nlist` field may be `undefined` (the
repository indexes past the end of an array in one case), so where that
matters a list entry is modelled as `Option String`, with `none` standing
for the JavaScript value `undefined`.
-/

namespace LGEssentials

/-- The append reducer declared for the `nlist` channel in every L1 graph:
`(left, right) => [...left, ...right]` (stated polymorphically; the source
declares it on string arrays). -/
def nlistReducer {α : Type} (left right : List α) : List α :=
  left ++ right

/-- The default-value factory for the `nlist` channel: `() => []`. -/
def nlistDefault {α : Type} : List α :=
  ([] : List α)

/-- The JavaScript expression `xs[xs.length - 1]` (equivalently `xs.at(-1)`)
on a string array whose entries may themselves be `undefined`: `undefined`
on an empty array, otherwise the last entry. -/
def lastElem (l : List (Option String)) : Option String :=
  match l.getLast? with
  | none => none
  | some v => v

/-- Rendering of a JavaScript string-or-undefined value inside a template
literal: `undefined` prints as the text "undefined". -/
def jsShow : Option String → String
  | none => "undefined"
  | some s => s

/-- Modelled from the spec: a node step function returns either a partial
state update (merged via the field reducers) or a Command carrying an update
together with an explicit next-node identifier (spec section 3, "Node"). -/
inductive NodeOut (υ : Type) where
  | update (u : υ)
  | command (u : υ) (gotoDest : String)
deriving Repr, DecidableEq

/-- The update carried by a node result. -/
def NodeOut.upd {υ : Type} : NodeOut υ → υ
  | .update u => u
  | .command u _ => u

/-- Modelled from the spec: a compiled graph, i.e. the node registry in
declaration order, the static edge table, and the reducer-fold that merges
one node's partial update into the running snapshot (spec sections 2-3).
The graph-execution engine itself lives in the third-party framework, not
in this repository, so it is embedded from the spec's description. -/
structure GraphDef (σ υ : Type) where
  nodes : List (String × (σ → NodeOut υ))
  edges : List (String × String)
  merge : σ → υ → σ

/-- First-occurrence deduplication of a frontier (duplicate targets collapse
to one invocation, spec section 4.2). -/
def dedupKeep (l : List String) : List String :=
  l.foldl (fun acc x => if acc.contains x then acc else acc ++ [x]) []

/-- Static successors of a node, or the Command destination when one was
returned (spec section 4.2: a Command overrides the static edges). -/
def succOf {υ : Type} (edges : List (String × String)) (name : String) :
    NodeOut υ → List String
  | .command _ g => [g]
  | .update _ => (edges.filter (fun e => e.1 = name)).map (·.2)

/-- The results of one super-step in declaration order: every node of the
frontier is invoked on the snapshot as of step start (spec section 4.2:
invocations within a step are logically concurrent and never observe each
other's output). -/
def activeResults {σ υ : Type} (nodes : List (String × (σ → NodeOut υ)))
    (snap : σ) (frontier : List String) : List (String × NodeOut υ) :=
  (nodes.filter (fun n => frontier.contains n.1)).map (fun n => (n.1, n.2 snap))

/-- Fold every collected update into the snapshot via the reducers, in the
declaration-ordered sequence of the result list (spec section 4.2). -/
def foldUpdates {σ υ : Type} (merge : σ → υ → σ) (snap : σ)
    (rs : List (String × NodeOut υ)) : σ :=
  rs.foldl (fun s r => merge s r.2.upd) snap

/-- The next frontier: each result contributes its destinations, duplicate
targets collapse to a single invocation, and the terminal sentinel is not
scheduled (spec section 4.2). -/
def stepFrontier {υ : Type} (edges : List (String × String))
    (rs : List (String × NodeOut υ)) : List String :=
  (dedupKeep (rs.foldl (fun acc r => acc ++ succOf edges r.1 r.2) [])).filter
    (fun n => n ≠ "__end__")

/-- The initial frontier: the successors of the start sentinel. -/
def startFrontier (edges : List (String × String)) : List String :=
  (dedupKeep ((edges.filter (fun e => e.1 = "__start__")).map (·.2))).filter
    (fun n => n ≠ "__end__")

/-- Modelled from the spec: the super-step loop (spec section 4.2).  Runs
super-steps until the frontier is empty, returning the final snapshot and
the per-step trace of invoked node names; `none` when the fuel runs out. -/
def runSteps {σ υ : Type} (g : GraphDef σ υ) :
    Nat → σ → List String → List (List String) →
    Option (σ × List (List String))
  | 0, _, _, _ => none
  | fuel + 1, snap, frontier, trace =>
    if frontier = [] then some (snap, trace)
    else
      let rs := activeResults g.nodes snap frontier
      runSteps g fuel (foldUpdates g.merge snap rs) (stepFrontier g.edges rs)
        (trace ++ [rs.map (·.1)])

/-- Modelled from the spec: `invoke` on a fresh thread — run the super-step
loop from the entry frontier on the initial snapshot (the input merged into
the per-field defaults). -/
def invokeG {σ υ : Type} (g : GraphDef σ υ) (fuel : Nat) (init : σ) :
    Option (σ × List (List String)) :=
  runSteps g fuel init (startFrontier g.edges) []

/-! ## The parallel-execution graph (part_006 / 04-memory.ts second half)

State type `string[]`; every node in this graph only appends string
literals, so the snapshot is a `List String`. -/

/-- Node `a` of the parallel-execution graph: returns `{nlist: ['A']}`. -/
def nodeAPar (_ : List String) : NodeOut (List String) :=
  .update ["A"]

/-- Node `b` of the parallel-execution graph. -/
def nodeBPar (_ : List String) : NodeOut (List String) :=
  .update ["B"]

/-- Node `bb` of the parallel-execution graph. -/
def nodeBBPar (_ : List String) : NodeOut (List String) :=
  .update ["BB"]

/-- Node `c` of the parallel-execution graph. -/
def nodeCPar (_ : List String) : NodeOut (List String) :=
  .update ["C"]

/-- Node `cc` of the parallel-execution graph. -/
def nodeCCPar (_ : List String) : NodeOut (List String) :=
  .update ["CC"]

/-- Node `d` of the parallel-execution graph. -/
def nodeDPar (_ : List String) : NodeOut (List String) :=
  .update ["D"]

/-- `createParallelExecutionGraph`: nodes declared in the order
a, b, bb, c, cc, d; edges START→a, a→b, a→c, b→bb, c→cc, bb→d, cc→d,
d→END; single channel `nlist` with the append reducer. -/
def parGraph : GraphDef (List String) (List String) where
  nodes := [("a", nodeAPar), ("b", nodeBPar), ("bb", nodeBBPar),
            ("c", nodeCPar), ("cc", nodeCCPar), ("d", nodeDPar)]
  edges := [("__start__", "a"), ("a", "b"), ("a", "c"), ("b", "bb"),
            ("c", "cc"), ("bb", "d"), ("cc", "d"), ("d", "__end__")]
  merge := nlistReducer

/-! ## The conditional-edges graph (conditional-edges.ts / part_003)

`nodeA` reads the last element of `nlist`, which is `undefined` on an empty
list, and may write it back, so here a list entry is `Option String`. -/

/-- The routing computed by `nodeA` of the conditional-edges graph:
'b' → b, 'c' → c, 'q' → `__end__`, anything else → `__end__`. -/
def routeOf (select : Option String) : String :=
  if select = some "b" then "b"
  else if select = some "c" then "c"
  else if select = some "q" then "__end__"
  else "__end__"

/-- `nodeA` of the conditional-edges graph: reads the last element of
`nlist` and returns `Command({update: {nlist: [select]}, goto: nextNode})`. -/
def nodeACond (state : List (Option String)) : NodeOut (List (Option String)) :=
  .command [lastElem state] (routeOf (lastElem state))

/-- `nodeB`: returns `{nlist: ['B']}`. -/
def nodeBCond (_ : List (Option String)) : NodeOut (List (Option String)) :=
  .update [some "B"]

/-- `nodeC`: returns `{nlist: ['C']}`. -/
def nodeCCond (_ : List (Option String)) : NodeOut (List (Option String)) :=
  .update [some "C"]

/-- `createConditionalEdgesGraph`: nodes a, b, c; edges START→a, b→END,
c→END (no static edge out of `a`); append reducer on `nlist`.
`createMemoryGraph` in memory.ts builds the identical node and edge set
(its only addition is the MemorySaver checkpointer, modelled separately). -/
def condGraph : GraphDef (List (Option String)) (List (Option String)) where
  nodes := [("a", nodeACond), ("b", nodeBCond), ("c", nodeCCond)]
  edges := [("__start__", "a"), ("b", "__end__"), ("c", "__end__")]
  merge := nlistReducer

/-! ## The interrupt graph (interrupts.ts / part_006 second half)

A node may call `interrupt(payload)`.  On resume the engine re-runs the
interrupted node from its start with the prior resume values replayed in
order; the interrupt call returns the next replayed value, or suspends the
step when none is left (spec section 4.4).  A node step function here takes
the replay log alongside the snapshot. -/

/-- The payload carried by an `interrupt` call: here always an object
`{message: string}`. -/
structure InterruptPayload where
  message : String
deriving Repr, DecidableEq

/-- Modelled from the spec: result of one node invocation in an
interrupt-capable graph — a normal result, or a request for interruption. -/
inductive INodeOut (υ : Type) where
  | out (o : NodeOut υ)
  | interruptReq (p : InterruptPayload)
deriving Repr, DecidableEq

/-- Modelled from the spec: a compiled graph whose node step functions may
interrupt; each step function receives the resume-replay log for the
current invocation. -/
structure IGraphDef (σ υ : Type) where
  nodes : List (String × (List String → σ → INodeOut υ))
  edges : List (String × String)
  merge : σ → υ → σ

/-- Modelled from the spec: outcome of invoking an interrupt-capable graph —
`completed` with the final snapshot and trace, or `paused` carrying the
checkpoint (snapshot at step start and the frontier in progress) together
with the `__interrupt__` payload array returned to the caller; interruption
is a normal constructor of the result type, not an error (spec section 7). -/
inductive IResult (σ : Type) where
  | completed (snap : σ) (trace : List (List String))
  | paused (snap : σ) (frontier : List String) (payloads : List InterruptPayload)
  | fuelOut
deriving Repr

/-- The final snapshot of a completed run, if any. -/
def IResult.snap? {σ : Type} : IResult σ → Option σ
  | .completed s _ => some s
  | _ => none

/-- The results of one super-step of an interrupt-capable graph, in
declaration order, every node reading the snapshot as of step start and the
current replay log. -/
def iactiveResults {σ υ : Type}
    (nodes : List (String × (List String → σ → INodeOut υ)))
    (log : List String) (snap : σ) (frontier : List String) :
    List (String × INodeOut υ) :=
  (nodes.filter (fun n => frontier.contains n.1)).map
    (fun n => (n.1, n.2 log snap))

/-- The interrupt payloads raised during one super-step. -/
def interruptsOf {υ : Type} (rs : List (String × INodeOut υ)) :
    List InterruptPayload :=
  rs.filterMap (fun r =>
    match r.2 with | .interruptReq p => some p | .out _ => none)

/-- The normal results of one super-step. -/
def outsOf {υ : Type} (rs : List (String × INodeOut υ)) :
    List (String × NodeOut υ) :=
  rs.filterMap (fun r =>
    match r.2 with | .out o => some (r.1, o) | .interruptReq _ => none)

/-- Modelled from the spec: the super-step loop with interrupts.  If any
node invocation of a step raises an interrupt, no effect of that step is
committed: the engine returns `paused` with the step-start snapshot, the
in-progress frontier, and the payloads (spec section 4.2, Suspension). -/
def irunSteps {σ υ : Type} (g : IGraphDef σ υ) (log : List String) :
    Nat → σ → List String → List (List String) → IResult σ
  | 0, _, _, _ => .fuelOut
  | fuel + 1, snap, frontier, trace =>
    if frontier = [] then .completed snap trace
    else if interruptsOf (iactiveResults g.nodes log snap frontier) = [] then
      irunSteps g log fuel
        (foldUpdates g.merge snap (outsOf (iactiveResults g.nodes log snap frontier)))
        (stepFrontier g.edges (outsOf (iactiveResults g.nodes log snap frontier)))
        (trace ++ [(outsOf (iactiveResults g.nodes log snap frontier)).map (·.1)])
    else .paused snap frontier (interruptsOf (iactiveResults g.nodes log snap frontier))

/-- Modelled from the spec: invoking an interrupt-capable graph on a fresh
thread — empty replay log, entry frontier. -/
def invokeI {σ υ : Type} (g : IGraphDef σ υ) (fuel : Nat) (init : σ) :
    IResult σ :=
  irunSteps g [] fuel init (startFrontier g.edges) []

/-- Modelled from the spec: re-invoking with a ResumeCommand carrying `v` —
the paused checkpoint's snapshot and frontier are restored and the
interrupted node re-runs from its beginning with `v` replayed at its
interrupt call (spec section 4.4). -/
def resumeI {σ υ : Type} (g : IGraphDef σ υ) (v : String) (fuel : Nat)
    (snap : σ) (frontier : List String) : IResult σ :=
  irunSteps g [v] fuel snap frontier []

/-- `nodeA` of the interrupt graph: routes on the last element of `nlist`;
on any value other than 'b', 'c', 'q' it calls
`interrupt({message: "💥 Unexpected input <select>! Continue? "})`; the
resume value 'continue' routes to `b` with update `{nlist: [select]}`, any
other resume value routes to the terminal sentinel with `{nlist: ['q']}`. -/
def nodeAInt (log : List String) (state : List (Option String)) :
    INodeOut (List (Option String)) :=
  let select := lastElem state
  if select = some "b" then .out (.command [select] "b")
  else if select = some "c" then .out (.command [select] "c")
  else if select = some "q" then .out (.command [select] "__end__")
  else
    match log with
    | [] => .interruptReq ⟨"💥 Unexpected input " ++ jsShow select ++ "! Continue? "⟩
    | admin :: _ =>
      if admin = "continue" then .out (.command [select] "b")
      else .out (.command [some "q"] "__end__")

/-- `nodeB` of the interrupt graph (ignores the replay log). -/
def nodeBInt (_ : List String) (_ : List (Option String)) :
    INodeOut (List (Option String)) :=
  .out (.update [some "B"])

/-- `nodeC` of the interrupt graph. -/
def nodeCInt (_ : List String) (_ : List (Option String)) :
    INodeOut (List (Option String)) :=
  .out (.update [some "C"])

/-- `createInterruptGraph`: nodes a, b, c; edges START→a, b→END, c→END;
append reducer on `nlist`; compiled with a MemorySaver checkpointer. -/
def interruptGraph : IGraphDef (List (Option String)) (List (Option String)) where
  nodes := [("a", nodeAInt), ("b", nodeBInt), ("c", nodeCInt)]
  edges := [("__start__", "a"), ("b", "__end__"), ("c", "__end__")]
  merge := nlistReducer

/-- Modelled from the spec: the variant of the interrupt graph's `nodeA` in
which the interrupt call directly returns the value `v` instead of
suspending — the reference behaviour that resume must be equivalent to
(spec section 8, interrupt/resume round-trip). -/
def nodeADirect (v : String) (state : List (Option String)) :
    NodeOut (List (Option String)) :=
  let select := lastElem state
  if select = some "b" then .command [select] "b"
  else if select = some "c" then .command [select] "c"
  else if select = some "q" then .command [select] "__end__"
  else if v = "continue" then .command [select] "b"
  else .command [some "q"] "__end__"

/-- The interrupt graph with `nodeA` replaced by its direct-input variant,
interrupt-free. -/
def directGraph (v : String) : GraphDef (List (Option String)) (List (Option String)) where
  nodes := [("a", nodeADirect v), ("b", nodeBCond), ("c", nodeCCond)]
  edges := [("__start__", "a"), ("b", "__end__"), ("c", "__end__")]
  merge := nlistReducer

/-! ## The memory graph and its shared MemorySaver store (memory.ts)

`createMemoryGraph` registers the same nodes a, b, c and edges as the
conditional-edges graph, and compiles with a single `MemorySaver`.  The
store keeps, per thread id, an append-only checkpoint history; loading
returns the most recently saved snapshot for that thread id.  A store is
modelled as an association list to which each invocation prepends its new
checkpoint, so lookup finds the latest one. -/

/-- The memory graph is the conditional-edges node/edge set (memory.ts
builds it with the identical nodeA/nodeB/nodeC and edges). -/
def memoryGraph : GraphDef (List (Option String)) (List (Option String)) :=
  condGraph

/-- A MemorySaver: the latest checkpointed snapshot per thread, newest
first. -/
abbrev MemStore : Type :=
  List (String × List (Option String))

/-- The snapshot an invocation starts from and ends with: the thread's
checkpointed snapshot (or the channel default for a fresh thread) with the
caller's input folded in via the reducer, then one full engine run. -/
def memFinal (prior input : List (Option String)) : List (Option String) :=
  match invokeG memoryGraph 10 (nlistReducer prior input) with
  | some (s, _) => s
  | none => nlistReducer prior input

/-- Modelled from the spec: one `invoke(input, {thread_id: tid})` against
the shared store — load the latest checkpoint for `tid` (default for a
fresh thread), run, save the new checkpoint under `tid` (spec sections 4.3
and 2, control flow). -/
def memInvoke (store : MemStore) (tid : String) (input : List (Option String)) :
    List (Option String) × MemStore :=
  (memFinal ((store.lookup tid).getD nlistDefault) input,
   (tid, memFinal ((store.lookup tid).getD nlistDefault) input) :: store)

/-- Run a sequence of invocations, each tagged with its thread id, against
one shared store. -/
def runMemOps : MemStore → List (String × List (Option String)) → MemStore
  | store, [] => store
  | store, op :: ops => runMemOps (memInvoke store op.1 op.2).2 ops

/-- The snapshot visible under a thread id: its latest checkpoint, or the
channel default when the thread has never run. -/
def viewThread (store : MemStore) (tid : String) : List (Option String) :=
  (store.lookup tid).getD nlistDefault

/-! ## Completion schedules (spec section 5)

A super-step's node invocations are conceptually parallel; an adversarial
*completion schedule* decides the order in which their results come back.
The engine re-sequences collected results into declaration order before
applying reducers, so the outcome must not depend on the schedule. -/

/-- The declaration-ordered names of the nodes active in a frontier. -/
def activeNames {σ υ : Type} (nodes : List (String × (σ → NodeOut υ)))
    (frontier : List String) : List String :=
  (nodes.filter (fun n => frontier.contains n.1)).map (·.1)

/-- Results of one super-step as collected in an arbitrary completion
order; every invocation still reads the snapshot as of step start. -/
def schedResults {σ υ : Type} (nodes : List (String × (σ → NodeOut υ)))
    (snap : σ) (order : List String) : List (String × NodeOut υ) :=
  order.filterMap (fun nm => (nodes.lookup nm).map (fun f => (nm, f snap)))

/-- Stable re-sequencing of collected results into node declaration order
(spec section 5: reducer application order is declaration order, not
completion order). -/
def sortToDecl {σ υ : Type} (nodes : List (String × (σ → NodeOut υ)))
    (rs : List (String × NodeOut υ)) : List (String × NodeOut υ) :=
  nodes.filterMap (fun n => (rs.lookup n.1).map (fun o => (n.1, o)))

/-- The super-step loop where step `i`'s results arrive in the completion
order `sched i frontier` and are re-sequenced into declaration order before
the reducer fold. -/
def runStepsSched {σ υ : Type} (g : GraphDef σ υ)
    (sched : Nat → List String → List String) :
    Nat → Nat → σ → List String → List (List String) →
    Option (σ × List (List String))
  | _, 0, _, _, _ => none
  | i, fuel + 1, snap, frontier, trace =>
    if frontier = [] then some (snap, trace)
    else
      let rs := sortToDecl g.nodes (schedResults g.nodes snap (sched i frontier))
      runStepsSched g sched (i + 1) fuel (foldUpdates g.merge snap rs)
        (stepFrontier g.edges rs) (trace ++ [rs.map (·.1)])

/-- Invocation under a completion schedule. -/
def invokeSched {σ υ : Type} (g : GraphDef σ υ)
    (sched : Nat → List String → List String) (fuel : Nat) (init : σ) :
    Option (σ × List (List String)) :=
  runStepsSched g sched 0 fuel init (startFrontier g.edges) []

/-- An adversarial schedule: results always come back in reverse
declaration order. -/
def revSched : Nat → List String → List String :=
  fun _ f => (activeNames parGraph.nodes f).reverse

/-- The canonical schedule: results come back in declaration order. -/
def idSched : Nat → List String → List String :=
  fun _ f => activeNames parGraph.nodes f

/-! ## The L2 email workflow state (email-workflow.ts)

`EmailStateAnnotation` declares eight fields, none with an explicit
reducer, so each uses the default last-write-wins channel: a node's partial
update replaces exactly the fields it mentions and leaves every other field
unchanged. -/

/-- The `intent` enumeration of `EmailClassification`. -/
inductive Intent where
  | question
  | bug
  | billing
  | feature
  | complex
deriving Repr, DecidableEq

/-- The `urgency` enumeration of `EmailClassification`. -/
inductive Urgency where
  | low
  | medium
  | high
  | critical
deriving Repr, DecidableEq

/-- The `EmailClassification` structure from the type definitions. -/
structure EmailClassification where
  intent : Intent
  urgency : Urgency
  topic : String
  summary : String
deriving Repr, DecidableEq

/-- The `EmailStateAnnotation` snapshot: eight fields; the `| undefined`
fields are `Option`s.  `customer_history` (a `Record<string, any>`) is
modelled as an association list of strings, which suffices since no claim
inspects its values. -/
structure EmailAgentState where
  email_content : String
  sender_email : String
  email_id : String
  classification : Option EmailClassification
  ticket_id : Option String
  search_results : Option (List String)
  customer_history : Option (List (String × String))
  draft_response : Option String
deriving Repr, DecidableEq

/-- A partial update returned by an email-workflow node: `some` for a field
the update object mentions, `none` for an omitted field.  The empty object
`{}` is the update with every field omitted. -/
structure EmailUpdate where
  email_content : Option String := none
  sender_email : Option String := none
  email_id : Option String := none
  classification : Option (Option EmailClassification) := none
  ticket_id : Option (Option String) := none
  search_results : Option (Option (List String)) := none
  customer_history : Option (Option (List (String × String))) := none
  draft_response : Option (Option String) := none
deriving Repr, DecidableEq

/-- Modelled from the spec: merging a partial update into the snapshot with
the default last-write-wins reducer per field — a mentioned field is
replaced by the incoming value, an unmentioned field retains its prior
value (spec section 4.1). -/
def applyEmailUpdate (s : EmailAgentState) (u : EmailUpdate) :
    EmailAgentState where
  email_content := u.email_content.getD s.email_content
  sender_email := u.sender_email.getD s.sender_email
  email_id := u.email_id.getD s.email_id
  classification := u.classification.getD s.classification
  ticket_id := u.ticket_id.getD s.ticket_id
  search_results := u.search_results.getD s.search_results
  customer_history := u.customer_history.getD s.customer_history
  draft_response := u.draft_response.getD s.draft_response

/-- `readEmail`: logs the sender and returns `{}` — passes state through
unchanged. -/
def readEmail (_ : EmailAgentState) : EmailUpdate :=
  {}

/-- `sendReply`: logs a preview of the draft and returns `{}`. -/
def sendReply (_ : EmailAgentState) : EmailUpdate :=
  {}

/-! ## JavaScript values and the humanReview node (email-workflow.ts)

`humanReview` branches on an arbitrary JavaScript resume value, so the
value domain is modelled as a small JavaScript universe with the JS
truthiness, `typeof`, `in`, member access, `||` and `??` operators the
function uses (numbers as integers; no claim involves float arithmetic). -/

/-- A JavaScript value as far as `humanReview` can observe one. -/
inductive JSValue where
  | undefinedJS
  | jnull
  | bool (b : Bool)
  | num (n : Int)
  | str (s : String)
  | arr (xs : List JSValue)
  | obj (fields : List (String × JSValue))
deriving Repr

/-- JavaScript truthiness. -/
def truthy : JSValue → Bool
  | .undefinedJS => false
  | .jnull => false
  | .bool b => b
  | .num n => n != 0
  | .str s => s != ""
  | .arr _ => true
  | .obj _ => true

/-- `typeof x === 'object'` (true for objects, arrays and null). -/
def isObjectType : JSValue → Bool
  | .obj _ => true
  | .arr _ => true
  | .jnull => true
  | _ => false

/-- The JavaScript `in` operator for a string key, as used on the guarded
(truthy, object-typed) decision value. -/
def hasKey : JSValue → String → Bool
  | .obj fields, k => (fields.map Prod.fst).contains k
  | _, _ => false

/-- JavaScript member access `x[k]`: `undefined` when absent. -/
def getField : JSValue → String → JSValue
  | .obj fields, k =>
    match fields.lookup k with
    | some v => v
    | none => .undefinedJS
  | _, _ => .undefinedJS

/-- JavaScript `a || b`. -/
def jsOr (a b : JSValue) : JSValue :=
  if truthy a then a else b

/-- JavaScript `a ?? b`. -/
def jsNullish (a b : JSValue) : JSValue :=
  match a with
  | .undefinedJS => b
  | .jnull => b
  | _ => a

/-- The state's `draft_response` as a JavaScript value (`undefined` when
absent). -/
def jsOfDraft : Option String → JSValue
  | none => .undefinedJS
  | some s => .str s

/-- The Command returned by `humanReview`: the destination and the
`draft_response` update it carries (`none` for the empty update `{}`). -/
structure HRCommand where
  gotoDest : String
  draftUpdate : Option JSValue
deriving Repr

/-- `humanReview` (email-workflow.ts lines 212-251): after the interrupt
returns `humanDecision`, guard `humanDecision && typeof humanDecision ===
'object' && 'approved' in humanDecision`; approved truthy routes to
`send_reply` updating the draft to `humanDecision.edited_response ||
state.draft_response`; approved falsy routes to the terminal sentinel with
`{}`; anything else routes to `send_reply` with `{}`. -/
def humanReview (state : EmailAgentState) (humanDecision : JSValue) :
    HRCommand :=
  if truthy humanDecision && isObjectType humanDecision &&
      hasKey humanDecision "approved" then
    if truthy (getField humanDecision "approved") then
      ⟨"send_reply",
       some (jsOr (getField humanDecision "edited_response")
         (jsOfDraft state.draft_response))⟩
    else ⟨"__end__", none⟩
  else ⟨"send_reply", none⟩

/-- `humanReview` (email-workflow.ts lines 899-942, the documented
variant): identical except the edited response is selected with `??`
instead of `||`. -/
def humanReviewDoc (state : EmailAgentState) (humanDecision : JSValue) :
    HRCommand :=
  if truthy humanDecision && isObjectType humanDecision &&
      hasKey humanDecision "approved" then
    if truthy (getField humanDecision "approved") then
      ⟨"send_reply",
       some (jsNullish (getField humanDecision "edited_response")
         (jsOfDraft state.draft_response))⟩
    else ⟨"__end__", none⟩
  else ⟨"send_reply", none⟩

end LGEssentials

namespace LGEssentials

/-! ## Small-step unfolding lemmas for the two engines -/

/-- One committed super-step of the plain engine. -/
theorem runSteps_step {σ υ : Type} (g : GraphDef σ υ) (fuel : Nat) (snap : σ)
    (frontier : List String) (trace : List (List String))
    (rs : List (String × NodeOut υ)) (hne : frontier ≠ [])
    (h : activeResults g.nodes snap frontier = rs) :
    runSteps g (fuel + 1) snap frontier trace =
      runSteps g fuel (foldUpdates g.merge snap rs) (stepFrontier g.edges rs)
        (trace ++ [rs.map (·.1)]) := by
  conv_lhs => unfold runSteps
  rw [if_neg hne, h]

/-- Termination of the plain engine on an empty frontier. -/
theorem runSteps_done {σ υ : Type} (g : GraphDef σ υ) (fuel : Nat) (snap : σ)
    (trace : List (List String)) :
    runSteps g (fuel + 1) snap [] trace = some (snap, trace) := by
  conv_lhs => unfold runSteps
  rw [if_pos rfl]

/-- One committed super-step of the interrupt-capable engine. -/
theorem irunSteps_step {σ υ : Type} (g : IGraphDef σ υ) (log : List String)
    (fuel : Nat) (snap : σ) (frontier : List String)
    (trace : List (List String)) (rs : List (String × INodeOut υ))
    (hne : frontier ≠ [])
    (h : iactiveResults g.nodes log snap frontier = rs)
    (hni : interruptsOf rs = []) :
    irunSteps g log (fuel + 1) snap frontier trace =
      irunSteps g log fuel (foldUpdates g.merge snap (outsOf rs))
        (stepFrontier g.edges (outsOf rs)) (trace ++ [(outsOf rs).map (·.1)]) := by
  conv_lhs => unfold irunSteps
  rw [if_neg hne, h, if_pos hni]

/-- A super-step that raises an interrupt pauses without committing. -/
theorem irunSteps_pause {σ υ : Type} (g : IGraphDef σ υ) (log : List String)
    (fuel : Nat) (snap : σ) (frontier : List String)
    (trace : List (List String)) (rs : List (String × INodeOut υ))
    (hne : frontier ≠ [])
    (h : iactiveResults g.nodes log snap frontier = rs)
    (hni : interruptsOf rs ≠ []) :
    irunSteps g log (fuel + 1) snap frontier trace =
      .paused snap frontier (interruptsOf rs) := by
  conv_lhs => unfold irunSteps
  rw [if_neg hne, h, if_neg hni]

/-- Termination of the interrupt-capable engine on an empty frontier. -/
theorem irunSteps_done {σ υ : Type} (g : IGraphDef σ υ) (log : List String)
    (fuel : Nat) (snap : σ) (trace : List (List String)) :
    irunSteps g log (fuel + 1) snap [] trace = .completed snap trace := by
  conv_lhs => unfold irunSteps
  rw [if_pos rfl]

/-- Routing fact shared by the interrupt claims: on an unexpected input the
first invocation of the interrupt graph pauses in node `a` with the
interrupt payload and the uncommitted step-start snapshot. -/
theorem interruptGraph_pauses (s : List (Option String))
    (hb : lastElem s ≠ some "b") (hc : lastElem s ≠ some "c")
    (hq : lastElem s ≠ some "q") :
    invokeI interruptGraph 10 s =
      .paused s ["a"]
        [⟨"💥 Unexpected input " ++ jsShow (lastElem s) ++ "! Continue? "⟩] := by
  have hA : nodeAInt [] s =
      .interruptReq
        ⟨"💥 Unexpected input " ++ jsShow (lastElem s) ++ "! Continue? "⟩ := by
    unfold nodeAInt
    simp only [if_neg hb, if_neg hc, if_neg hq]
  have hrs : iactiveResults interruptGraph.nodes [] s ["a"] =
      [("a", INodeOut.interruptReq
        ⟨"💥 Unexpected input " ++ jsShow (lastElem s) ++ "! Continue? "⟩)] := by
    rw [show iactiveResults interruptGraph.nodes [] s ["a"] =
        [("a", nodeAInt [] s)] from rfl, hA]
  show irunSteps interruptGraph [] 10 s ["a"] [] = _
  rw [show (10 : Nat) = 9 + 1 from rfl,
      irunSteps_pause interruptGraph [] 9 s ["a"] [] _ (by decide) hrs
        (by simp [interruptsOf])]
  rfl

/-- **C1.** Diamond fan-in ordering for the parallel-execution graph:
invoked with `nlist = ["Initial String:"]`, the engine runs `a`, then `b`
and `c` in one super-step, then `bb` and `cc`, then `d` exactly once, and
the final snapshot is
`["Initial String:", "A", "B", "C", "BB", "CC", "D"]` — node labels appended
in super-step order, declaration order within a step. -/
theorem parallel_diamond_fan_in :
    invokeG parGraph 10 ["Initial String:"] =
      some (["Initial String:", "A", "B", "C", "BB", "CC", "D"],
            [["a"], ["b", "c"], ["bb", "cc"], ["d"]]) := by
  rfl

/-- **C5.** The append reducer on `nlist` is associative and has the default
value `[]` as a left identity, so folding updates {X, Y} then {Z} into a
field equals folding {X} then {Y, Z}. -/
theorem nlist_reducer_associative (x y z : List String) :
    nlistReducer (nlistReducer x y) z = nlistReducer x (nlistReducer y z) ∧
    nlistReducer nlistDefault x = x := by
  constructor
  · simp [nlistReducer, List.append_assoc]
  · simp [nlistReducer, nlistDefault]

/-- **C10.** Empty-list edge case: on an empty `nlist` the conditional-edges
`nodeA` reads `undefined` (`none`), routes to the terminal sentinel, and
commits the update `{nlist: [undefined]}` — the run terminates with only
node `a` invoked, and the final snapshot holds the non-string entry `none`. -/
theorem nodeA_empty_list_commits_undefined :
    nodeACond [] = .command [none] "__end__" ∧
    invokeG condGraph 10 [] = some ([none], [["a"]]) := by
  constructor
  · rfl
  · rfl

/-- **C6.** Terminal reachability for the conditional-edges graph: when the
last element of `nlist` is 'q' (or anything other than 'b' or 'c'), `nodeA`
returns a Command routing to the terminal sentinel, the engine halts in the
completed state with `nodeA`'s update committed, and no further node runs —
the trace holds only node `a`, so no 'B' or 'C' is ever appended. -/
theorem cond_terminal_halts (s : List (Option String))
    (hb : lastElem s ≠ some "b") (hc : lastElem s ≠ some "c") :
    nodeACond s = .command [lastElem s] "__end__" ∧
    invokeG condGraph 10 s = some (s ++ [lastElem s], [["a"]]) := by
  have hroute : routeOf (lastElem s) = "__end__" := by
    simp [routeOf, hb, hc]
  have hrs : activeResults condGraph.nodes s ["a"] =
      [("a", NodeOut.command [lastElem s] "__end__")] := by
    rw [show activeResults condGraph.nodes s ["a"] =
          [("a", nodeACond s)] from rfl,
        show nodeACond s =
          NodeOut.command [lastElem s] (routeOf (lastElem s)) from rfl,
        hroute]
  constructor
  · show NodeOut.command [lastElem s] (routeOf (lastElem s)) = _
    rw [hroute]
  · show runSteps condGraph (9 + 1) s ["a"] [] = _
    rw [runSteps_step condGraph 9 s ["a"] [] _ (by decide) hrs]
    rw [show foldUpdates condGraph.merge s
          [("a", NodeOut.command [lastElem s] "__end__")] =
          s ++ [lastElem s] from rfl,
        show stepFrontier condGraph.edges
          [("a", NodeOut.command [lastElem s] "__end__")] =
          ([] : List String) from rfl,
        show ([] : List (List String)) ++
          [[("a", NodeOut.command [lastElem s] "__end__")].map (·.1)] =
          [["a"]] from rfl]
    exact runSteps_done condGraph 8 (s ++ [lastElem s]) [["a"]]

/-- Witness for C6 at the concrete input `nlist = ["q"]`. -/
theorem cond_terminal_halts_witness :
    nodeACond [some "q"] = .command [some "q"] "__end__" ∧
    invokeG condGraph 10 [some "q"] = some ([some "q", some "q"], [["a"]]) :=
  cond_terminal_halts [some "q"] (by decide) (by decide)

/-- **C7.** Interruption is a normal suspended return, not an error: on a
fresh thread, an input whose last `nlist` element is none of 'b', 'c', 'q'
makes the invocation return the `paused` result (a normal constructor of
the result type) carrying an `__interrupt__` array with payload
`{message: "💥 Unexpected input <select>! Continue? "}`; the checkpointed
snapshot equals the step-start snapshot, i.e. no update from `nodeA` was
committed for the suspended step. -/
theorem interrupt_is_normal_return (s : List (Option String))
    (hb : lastElem s ≠ some "b") (hc : lastElem s ≠ some "c")
    (hq : lastElem s ≠ some "q") :
    invokeI interruptGraph 10 s =
      .paused s ["a"]
        [⟨"💥 Unexpected input " ++ jsShow (lastElem s) ++ "! Continue? "⟩] :=
  interruptGraph_pauses s hb hc hq

/-- Witness for C7 at the concrete input `nlist = ["x"]`. -/
theorem interrupt_is_normal_return_witness :
    invokeI interruptGraph 10 [some "x"] =
      .paused [some "x"] ["a"]
        [⟨"💥 Unexpected input x! Continue? "⟩] :=
  interrupt_is_normal_return [some "x"] (by decide) (by decide) (by decide)

/-- **C2.** Resume is behaviorally transparent: for every initial input
whose last `nlist` element is none of 'b', 'c', 'q' and every resume value
`v`, the first invocation pauses in `nodeA`, and re-invoking with a
ResumeCommand carrying `v` re-runs `nodeA` on the same checkpointed
snapshot with `v` substituted for the interrupt call, producing exactly the
final snapshot of the interrupt-free variant in which the interrupt call
directly returns `v`: `v = 'continue'` routes to `b` (appending the
selected value then 'B'), any other `v` routes to the terminal sentinel
appending 'q'. -/
theorem resume_transparent (s : List (Option String)) (v : String)
    (hb : lastElem s ≠ some "b") (hc : lastElem s ≠ some "c")
    (hq : lastElem s ≠ some "q") :
    invokeI interruptGraph 10 s =
      .paused s ["a"]
        [⟨"💥 Unexpected input " ++ jsShow (lastElem s) ++ "! Continue? "⟩] ∧
    (resumeI interruptGraph v 10 s ["a"]).snap? =
      (invokeG (directGraph v) 10 s).map Prod.fst ∧
    (resumeI interruptGraph v 10 s ["a"]).snap? =
      some (if v = "continue" then s ++ [lastElem s, some "B"]
            else s ++ [some "q"]) := by
  refine ⟨interruptGraph_pauses s hb hc hq, ?_⟩
  by_cases hv : v = "continue"
  · subst hv
    have hA : nodeAInt ["continue"] s =
        .out (.command [lastElem s] "b") := by
      unfold nodeAInt
      simp [hb, hc, hq]
    have hrs : iactiveResults interruptGraph.nodes ["continue"] s ["a"] =
        [("a", INodeOut.out (NodeOut.command [lastElem s] "b"))] := by
      rw [show iactiveResults interruptGraph.nodes ["continue"] s ["a"] =
          [("a", nodeAInt ["continue"] s)] from rfl, hA]
    have hAd : nodeADirect "continue" s = .command [lastElem s] "b" := by
      unfold nodeADirect
      simp [hb, hc, hq]
    have hrsd : activeResults (directGraph "continue").nodes s ["a"] =
        [("a", NodeOut.command [lastElem s] "b")] := by
      rw [show activeResults (directGraph "continue").nodes s ["a"] =
          [("a", nodeADirect "continue" s)] from rfl, hAd]
    have hres : resumeI interruptGraph "continue" 10 s ["a"] =
        .completed ((s ++ [lastElem s]) ++ [some "B"]) [["a"], ["b"]] := by
      show irunSteps interruptGraph ["continue"] (9 + 1) s ["a"] [] = _
      rw [irunSteps_step interruptGraph ["continue"] 9 s ["a"] [] _
            (by decide) hrs rfl]
      rw [show foldUpdates interruptGraph.merge s
            (outsOf [("a", INodeOut.out (NodeOut.command [lastElem s] "b"))]) =
            s ++ [lastElem s] from rfl,
          show stepFrontier interruptGraph.edges
            (outsOf [("a", INodeOut.out (NodeOut.command [lastElem s] "b"))]) =
            ["b"] from rfl,
          show ([] : List (List String)) ++
            [(outsOf [("a", INodeOut.out
              (NodeOut.command [lastElem s] "b"))]).map (·.1)] =
            [["a"]] from rfl]
      rw [show (9 : Nat) = 8 + 1 from rfl,
          irunSteps_step interruptGraph ["continue"] 8 (s ++ [lastElem s])
            ["b"] [["a"]] [("b", INodeOut.out (NodeOut.update [some "B"]))]
            (by decide) rfl rfl]
      rw [show foldUpdates interruptGraph.merge (s ++ [lastElem s])
            (outsOf [("b", INodeOut.out (NodeOut.update [some "B"]))]) =
            (s ++ [lastElem s]) ++ [some "B"] from rfl,
          show stepFrontier interruptGraph.edges
            (outsOf [("b", INodeOut.out (NodeOut.update [some "B"]))]) =
            ([] : List String) from rfl,
          show ([["a"]] : List (List String)) ++
            [(outsOf [("b", INodeOut.out
              (NodeOut.update [some "B"]))]).map (·.1)] =
            [["a"], ["b"]] from rfl]
      exact irunSteps_done interruptGraph ["continue"] 7
        ((s ++ [lastElem s]) ++ [some "B"]) [["a"], ["b"]]
    have hdir : invokeG (directGraph "continue") 10 s =
        some (((s ++ [lastElem s]) ++ [some "B"]), [["a"], ["b"]]) := by
      show runSteps (directGraph "continue") (9 + 1) s ["a"] [] = _
      rw [runSteps_step (directGraph "continue") 9 s ["a"] [] _
            (by decide) hrsd]
      rw [show foldUpdates (directGraph "continue").merge s
            [("a", NodeOut.command [lastElem s] "b")] =
            s ++ [lastElem s] from rfl,
          show stepFrontier (directGraph "continue").edges
            [("a", NodeOut.command [lastElem s] "b")] = ["b"] from rfl,
          show ([] : List (List String)) ++
            [[("a", NodeOut.command [lastElem s] "b")].map (·.1)] =
            [["a"]] from rfl]
      rw [show (9 : Nat) = 8 + 1 from rfl,
          runSteps_step (directGraph "continue") 8 (s ++ [lastElem s]) ["b"]
            [["a"]] [("b", NodeOut.update [some "B"])] (by decide) rfl]
      rw [show foldUpdates (directGraph "continue").merge (s ++ [lastElem s])
            [("b", NodeOut.update [some "B"])] =
            (s ++ [lastElem s]) ++ [some "B"] from rfl,
          show stepFrontier (directGraph "continue").edges
            [("b", NodeOut.update [some "B"])] = ([] : List String) from rfl,
          show ([["a"]] : List (List String)) ++
            [[("b", NodeOut.update [some "B"])].map (·.1)] =
            [["a"], ["b"]] from rfl]
      exact runSteps_done (directGraph "continue") 7
        ((s ++ [lastElem s]) ++ [some "B"]) [["a"], ["b"]]
    rw [hres, hdir]
    constructor
    · rfl
    · show some ((s ++ [lastElem s]) ++ [some "B"]) = _
      rw [List.append_assoc]
      rfl
  · have hA : nodeAInt [v] s =
        .out (.command [some "q"] "__end__") := by
      unfold nodeAInt
      simp [hb, hc, hq, hv]
    have hrs : iactiveResults interruptGraph.nodes [v] s ["a"] =
        [("a", INodeOut.out (NodeOut.command [some "q"] "__end__"))] := by
      rw [show iactiveResults interruptGraph.nodes [v] s ["a"] =
          [("a", nodeAInt [v] s)] from rfl, hA]
    have hAd : nodeADirect v s = .command [some "q"] "__end__" := by
      unfold nodeADirect
      simp [hb, hc, hq, hv]
    have hrsd : activeResults (directGraph v).nodes s ["a"] =
        [("a", NodeOut.command [some "q"] "__end__")] := by
      rw [show activeResults (directGraph v).nodes s ["a"] =
          [("a", nodeADirect v s)] from rfl, hAd]
    have hres : resumeI interruptGraph v 10 s ["a"] =
        .completed (s ++ [some "q"]) [["a"]] := by
      show irunSteps interruptGraph [v] (9 + 1) s ["a"] [] = _
      rw [irunSteps_step interruptGraph [v] 9 s ["a"] [] _ (by decide) hrs rfl]
      rw [show foldUpdates interruptGraph.merge s
            (outsOf [("a", INodeOut.out
              (NodeOut.command [some "q"] "__end__"))]) =
            s ++ [some "q"] from rfl,
          show stepFrontier interruptGraph.edges
            (outsOf [("a", INodeOut.out
              (NodeOut.command [some "q"] "__end__"))]) =
            ([] : List String) from rfl,
          show ([] : List (List String)) ++
            [(outsOf [("a", INodeOut.out
              (NodeOut.command [some "q"] "__end__"))]).map (·.1)] =
            [["a"]] from rfl]
      exact irunSteps_done interruptGraph [v] 8 (s ++ [some "q"]) [["a"]]
    have hdir : invokeG (directGraph v) 10 s =
        some ((s ++ [some "q"]), [["a"]]) := by
      show runSteps (directGraph v) (9 + 1) s ["a"] [] = _
      rw [runSteps_step (directGraph v) 9 s ["a"] [] _ (by decide) hrsd]
      rw [show foldUpdates (directGraph v).merge s
            [("a", NodeOut.command [some "q"] "__end__")] =
            s ++ [some "q"] from rfl,
          show stepFrontier (directGraph v).edges
            [("a", NodeOut.command [some "q"] "__end__")] =
            ([] : List String) from rfl,
          show ([] : List (List String)) ++
            [[("a", NodeOut.command [some "q"] "__end__")].map (·.1)] =
            [["a"]] from rfl]
      exact runSteps_done (directGraph v) 8 (s ++ [some "q"]) [["a"]]
    rw [hres, hdir]
    constructor
    · rfl
    · show some (s ++ [some "q"]) = _
      rw [if_neg hv]

/-- Witness for C2 at the concrete input `nlist = ["x"]` with the resume
value "continue". -/
theorem resume_transparent_witness :
    invokeI interruptGraph 10 [some "x"] =
      .paused [some "x"] ["a"]
        [⟨"💥 Unexpected input x! Continue? "⟩] ∧
    (resumeI interruptGraph "continue" 10 [some "x"] ["a"]).snap? =
      (invokeG (directGraph "continue") 10 [some "x"]).map Prod.fst ∧
    (resumeI interruptGraph "continue" 10 [some "x"] ["a"]).snap? =
      some [some "x", some "x", some "B"] :=
  resume_transparent [some "x"] "continue" (by decide) (by decide) (by decide)

/-- Lookup-preservation core of thread isolation: the snapshot visible
under `t2` after running any invocation sequence depends only on the
invocations tagged `t2`, provided the two runs start with stores agreeing
at `t2`. -/
theorem runMemOps_lookup_filter (t2 : String) :
    ∀ (ops : List (String × List (Option String))) (st1 st2 : MemStore),
      st1.lookup t2 = st2.lookup t2 →
      (runMemOps st1 ops).lookup t2 =
        (runMemOps st2 (ops.filter (fun op => op.1 == t2))).lookup t2 := by
  intro ops
  induction ops with
  | nil =>
    intro st1 st2 h
    simpa [runMemOps] using h
  | cons op ops ih =>
    intro st1 st2 h
    by_cases hop : op.1 = t2
    · rw [show (op :: ops).filter (fun o => o.1 == t2) =
          op :: ops.filter (fun o => o.1 == t2) by simp [List.filter_cons, hop]]
      show (runMemOps (memInvoke st1 op.1 op.2).2 ops).lookup t2 =
        (runMemOps (memInvoke st2 op.1 op.2).2
          (ops.filter (fun o => o.1 == t2))).lookup t2
      apply ih
      have hpri : st1.lookup op.1 = st2.lookup op.1 := by
        rw [hop]
        exact h
      show ((op.1, memFinal ((st1.lookup op.1).getD nlistDefault) op.2) ::
          st1).lookup t2 =
        ((op.1, memFinal ((st2.lookup op.1).getD nlistDefault) op.2) ::
          st2).lookup t2
      rw [hpri]
      have hbeq : (t2 == op.1) = true := by
        simp [hop]
      simp [List.lookup, hbeq]
    · rw [show (op :: ops).filter (fun o => o.1 == t2) =
          ops.filter (fun o => o.1 == t2) by simp [List.filter_cons, hop]]
      show (runMemOps (memInvoke st1 op.1 op.2).2 ops).lookup t2 = _
      apply ih
      have hbeq : (t2 == op.1) = false := by
        simp
        exact fun e => hop e.symm
      show ((op.1, memFinal ((st1.lookup op.1).getD nlistDefault) op.2) ::
          st1).lookup t2 = st2.lookup t2
      simp only [List.lookup, hbeq]
      exact h

/-- **C3.** Thread isolation: for the memory graph compiled with a single
shared MemorySaver, for every pair of distinct thread ids and every
sequence of invocations interleaved across the two threads, the snapshot
visible under `t2` equals the one obtained by running only `t2`'s
invocations in the same order — invocations under `t1` never change the
state observed under `t2`. -/
theorem thread_isolation (t1 t2 : String)
    (ops : List (String × List (Option String)))
    (hne : t1 ≠ t2) (hops : ∀ op ∈ ops, op.1 = t1 ∨ op.1 = t2) :
    viewThread (runMemOps [] ops) t2 =
      viewThread (runMemOps [] (ops.filter (fun op => op.1 == t2))) t2 := by
  unfold viewThread
  rw [runMemOps_lookup_filter t2 ops [] [] rfl]

/-- Witness for C3 on the interleaving run by
`runMultiThreadMemoryExample`. -/
theorem thread_isolation_witness :
    viewThread (runMemOps []
      [("thread-1", [some "b"]), ("thread-1", [some "c"]),
       ("thread-2", [some "c"]), ("thread-2", [some "b"]),
       ("thread-1", [some "q"]), ("thread-2", [some "q"])]) "thread-2" =
    viewThread (runMemOps []
      ([("thread-1", [some "b"]), ("thread-1", [some "c"]),
        ("thread-2", [some "c"]), ("thread-2", [some "b"]),
        ("thread-1", [some "q"]), ("thread-2", [some "q"])].filter
          (fun op => op.1 == "thread-2"))) "thread-2" :=
  thread_isolation "thread-1" "thread-2"
    [("thread-1", [some "b"]), ("thread-1", [some "c"]),
     ("thread-2", [some "c"]), ("thread-2", [some "b"]),
     ("thread-1", [some "q"]), ("thread-2", [some "q"])]
    (by decide) (by decide)

/-- Looking a name up in schedule-collected results: present exactly when
the schedule delivered it, with the value the node computed from the
step-start snapshot. -/
theorem lookup_schedResults {σ υ : Type}
    (nodes : List (String × (σ → NodeOut υ))) (snap : σ) (nm : String) :
    ∀ order : List String,
      (schedResults nodes snap order).lookup nm =
        if order.contains nm then (nodes.lookup nm).map (fun f => f snap)
        else none := by
  intro order
  induction order with
  | nil => simp [schedResults]
  | cons o rest ih =>
    cases hlo : nodes.lookup o with
    | none =>
      have e : schedResults nodes snap (o :: rest) =
          schedResults nodes snap rest := by
        simp [schedResults, List.filterMap_cons, hlo]
      rw [e, ih]
      by_cases hnm : nm = o
      · subst hnm
        rw [hlo]
        simp
      · have hbeq : (nm == o) = false := by simp [hnm]
        simp [List.contains_cons, hbeq, hnm]
    | some f =>
      have e : schedResults nodes snap (o :: rest) =
          (o, f snap) :: schedResults nodes snap rest := by
        simp [schedResults, List.filterMap_cons, hlo]
      rw [e]
      by_cases hnm : nm = o
      · subst hnm
        simp [List.lookup, hlo, List.contains_cons]
      · have hbeq : (nm == o) = false := by simp [hnm]
        simp only [List.lookup, hbeq, ih, List.contains_cons, Bool.false_or]

/-- In a registry with distinct node names, looking up a member gives its
step function. -/
theorem lookup_nodes_self {σ υ : Type} :
    ∀ (nodes : List (String × (σ → NodeOut υ))),
      (nodes.map Prod.fst).Nodup →
      ∀ n ∈ nodes, nodes.lookup n.1 = some n.2 := by
  intro nodes
  induction nodes with
  | nil => simp
  | cons m ms ih =>
    intro hnd n hn
    rw [List.map_cons] at hnd
    have hnd' := List.nodup_cons.mp hnd
    rcases List.mem_cons.mp hn with rfl | hn'
    · simp [List.lookup]
    · have hm : (n.1 == m.1) = false := by
        simp only [beq_eq_false_iff_ne, ne_eq]
        intro e
        exact hnd'.1 (e ▸ List.mem_map_of_mem Prod.fst hn')
      simp only [List.lookup, hm]
      exact ih hnd'.2 n hn'

/-- A filtered map is the filterMap of the guarded function. -/
theorem filterMapOfFilter {α β : Type} (p : α → Bool) (f : α → β) :
    ∀ l : List α,
      (l.filter p).map f =
        l.filterMap (fun a => if p a then some (f a) else none) := by
  intro l
  induction l with
  | nil => rfl
  | cons a l ih =>
    by_cases h : p a <;> simp [List.filter_cons, h, ih]

/-- Re-sequencing schedule-collected results into declaration order
recovers exactly the canonical declaration-ordered step results, for any
completion order that is a permutation of the active nodes. -/
theorem sortToDecl_sched {σ υ : Type}
    (nodes : List (String × (σ → NodeOut υ))) (snap : σ)
    (frontier order : List String)
    (hnd : (nodes.map Prod.fst).Nodup)
    (hperm : order.Perm (activeNames nodes frontier)) :
    sortToDecl nodes (schedResults nodes snap order) =
      activeResults nodes snap frontier := by
  unfold sortToDecl activeResults
  rw [filterMapOfFilter]
  apply List.filterMap_congr
  intro n hn
  rw [lookup_schedResults]
  have hcont : order.contains n.1 = frontier.contains n.1 := by
    have h2 : n.1 ∈ activeNames nodes frontier ↔ frontier.contains n.1 = true := by
      constructor
      · intro hmem
        have : ∃ m, (m ∈ nodes ∧ frontier.contains m.1 = true) ∧ m.1 = n.1 := by
          simpa [activeNames, List.mem_filter] using hmem
        rcases this with ⟨m, ⟨_, hmc⟩, hm1⟩
        rw [← hm1]
        exact hmc
      · intro hc
        have : n ∈ nodes ∧ frontier.contains n.1 = true := ⟨hn, hc⟩
        simp only [activeNames, List.mem_map]
        exact ⟨n, List.mem_filter.mpr ⟨hn, hc⟩, rfl⟩
    have h3 : order.contains n.1 = true ↔ frontier.contains n.1 = true := by
      rw [List.elem_iff, hperm.mem_iff, h2]
    cases ho : order.contains n.1 with
    | true => exact (h3.mp ho).symm
    | false =>
      cases hf : frontier.contains n.1 with
      | true =>
        have hcontra := h3.mpr hf
        rw [ho] at hcontra
        cases hcontra
      | false => rfl
  rw [hcont, lookup_nodes_self nodes hnd n hn]
  by_cases hf : frontier.contains n.1 = true
  · simp [hf]
  · simp [hf]

/-- The scheduled engine coincides with the canonical engine for every
admissible completion schedule, at every fuel, step index and frontier. -/
theorem runStepsSched_eq {σ υ : Type} (g : GraphDef σ υ)
    (sched : Nat → List String → List String)
    (hnd : (g.nodes.map Prod.fst).Nodup)
    (hs : ∀ i f, (sched i f).Perm (activeNames g.nodes f)) :
    ∀ (fuel i : Nat) (snap : σ) (frontier : List String)
      (trace : List (List String)),
      runStepsSched g sched i fuel snap frontier trace =
        runSteps g fuel snap frontier trace := by
  intro fuel
  induction fuel with
  | zero => intro i snap frontier trace; rfl
  | succ fuel ih =>
    intro i snap frontier trace
    by_cases hf : frontier = []
    · subst hf
      rfl
    · conv_lhs => unfold runStepsSched
      conv_rhs => unfold runSteps
      rw [if_neg hf, if_neg hf,
          sortToDecl_sched g.nodes snap frontier (sched i frontier) hnd
            (hs i frontier)]
      exact ih (i + 1) (foldUpdates g.merge snap (activeResults g.nodes snap frontier))
        (stepFrontier g.edges (activeResults g.nodes snap frontier))
        (trace ++ [(activeResults g.nodes snap frontier).map (·.1)])

/-- **C4.** Determinism of the parallel-execution graph: for every initial
state, any two invocations of the compiled graph — under any two completion
schedules, i.e. regardless of the order in which concurrent node results
arrive within each super-step — yield identical results, and both equal the
canonical declaration-ordered run: reducer application order is declaration
order, not completion order, so the outcome does not depend on execution
interleaving (and two runs under fresh distinct thread ids coincide). -/
theorem schedule_determinism (init : List String)
    (sched₁ sched₂ : Nat → List String → List String)
    (h₁ : ∀ i f, (sched₁ i f).Perm (activeNames parGraph.nodes f))
    (h₂ : ∀ i f, (sched₂ i f).Perm (activeNames parGraph.nodes f)) :
    invokeSched parGraph sched₁ 10 init = invokeSched parGraph sched₂ 10 init ∧
    invokeSched parGraph sched₁ 10 init = invokeG parGraph 10 init := by
  have hnd : (parGraph.nodes.map Prod.fst).Nodup := by decide
  have e1 : invokeSched parGraph sched₁ 10 init = invokeG parGraph 10 init :=
    runStepsSched_eq parGraph sched₁ hnd h₁ 10 0 init (startFrontier parGraph.edges) []
  have e2 : invokeSched parGraph sched₂ 10 init = invokeG parGraph 10 init :=
    runStepsSched_eq parGraph sched₂ hnd h₂ 10 0 init (startFrontier parGraph.edges) []
  exact ⟨e1.trans e2.symm, e1⟩

/-- Witness for C4: the reverse-completion-order schedule against the
declaration-order schedule on the example input. -/
theorem schedule_determinism_witness :
    invokeSched parGraph revSched 10 ["Initial String:"] =
      invokeSched parGraph idSched 10 ["Initial String:"] ∧
    invokeSched parGraph revSched 10 ["Initial String:"] =
      invokeG parGraph 10 ["Initial String:"] :=
  schedule_determinism ["Initial String:"] revSched idSched
    (fun _ f => List.reverse_perm (activeNames parGraph.nodes f))
    (fun _ f => List.Perm.refl (activeNames parGraph.nodes f))

/-- **C8.** Frame property of partial updates: a state field that a node's
returned partial update does not mention keeps exactly its prior value
under the merge; in particular `readEmail` and `sendReply` return the empty
update `{}`, so after either runs every field of the email snapshot is
unchanged. -/
theorem email_frame_property (s : EmailAgentState) (u : EmailUpdate) :
    applyEmailUpdate s (readEmail s) = s ∧
    applyEmailUpdate s (sendReply s) = s ∧
    (u.email_content = none →
      (applyEmailUpdate s u).email_content = s.email_content) ∧
    (u.sender_email = none →
      (applyEmailUpdate s u).sender_email = s.sender_email) ∧
    (u.email_id = none → (applyEmailUpdate s u).email_id = s.email_id) ∧
    (u.classification = none →
      (applyEmailUpdate s u).classification = s.classification) ∧
    (u.ticket_id = none → (applyEmailUpdate s u).ticket_id = s.ticket_id) ∧
    (u.search_results = none →
      (applyEmailUpdate s u).search_results = s.search_results) ∧
    (u.customer_history = none →
      (applyEmailUpdate s u).customer_history = s.customer_history) ∧
    (u.draft_response = none →
      (applyEmailUpdate s u).draft_response = s.draft_response) := by
  refine ⟨rfl, rfl, ?_, ?_, ?_, ?_, ?_, ?_, ?_, ?_⟩ <;>
    { intro h
      simp [applyEmailUpdate, h] }

/-- Witness for C8 at a concrete snapshot and the empty update. -/
theorem email_frame_property_witness :
    applyEmailUpdate
      (EmailAgentState.mk "hello" "a@b.c" "id1" none none none none
        (some "draft"))
      (readEmail (EmailAgentState.mk "hello" "a@b.c" "id1" none none none
        none (some "draft"))) =
      EmailAgentState.mk "hello" "a@b.c" "id1" none none none none
        (some "draft") ∧
    (applyEmailUpdate
      (EmailAgentState.mk "hello" "a@b.c" "id1" none none none none
        (some "draft")) {}).draft_response = some "draft" :=
  ⟨(email_frame_property (EmailAgentState.mk "hello" "a@b.c" "id1" none none
      none none (some "draft")) {}).1,
   (email_frame_property (EmailAgentState.mk "hello" "a@b.c" "id1" none none
      none none (some "draft")) {}).2.2.2.2.2.2.2.2.2 rfl⟩

/-- **C9 counterexample.** The claim says the approved branch updates
`draft_response` to `v.edited_response` "when present": with
`v = {approved: true, edited_response: ""}` the key is present with the
string value `""`, yet the lines-212 `humanReview` (which selects with
`||`) keeps the existing draft instead of the present edited response. -/
theorem humanReview_edited_counterexample :
    humanReview
      (EmailAgentState.mk "" "" "" none none none none (some "draft"))
      (JSValue.obj [("approved", JSValue.bool true),
                    ("edited_response", JSValue.str "")]) =
      ⟨"send_reply", some (JSValue.str "draft")⟩ ∧
    hasKey (JSValue.obj [("approved", JSValue.bool true),
        ("edited_response", JSValue.str "")]) "edited_response" = true ∧
    getField (JSValue.obj [("approved", JSValue.bool true),
        ("edited_response", JSValue.str "")]) "edited_response" =
      JSValue.str "" ∧
    humanReview
      (EmailAgentState.mk "" "" "" none none none none (some "draft"))
      (JSValue.obj [("approved", JSValue.bool true),
                    ("edited_response", JSValue.str "")]) ≠
      ⟨"send_reply", some (JSValue.str "")⟩ := by
  refine ⟨rfl, rfl, rfl, fun h => ?_⟩
  rw [show humanReview
      (EmailAgentState.mk "" "" "" none none none none (some "draft"))
      (JSValue.obj [("approved", JSValue.bool true),
                    ("edited_response", JSValue.str "")]) =
      ⟨"send_reply", some (JSValue.str "draft")⟩ from rfl] at h
  have h2 := congrArg HRCommand.draftUpdate h
  simp at h2

/-- **C9 (amended).** humanReview routing totality: for every state and
every resume value `v`, both versions of `humanReview` return a Command
whose goto is either `send_reply` or the terminal sentinel; if `v` is a
truthy object containing key `approved` with `approved` truthy, goto is
`send_reply` and the draft is updated to `v.edited_response` selected
against the existing draft by that version's operator (`||`: when truthy;
`??`: when neither undefined nor null), otherwise falling back to the
existing draft; if `approved` is falsy, goto is the terminal sentinel with
the empty update; for every other `v`, goto is `send_reply` with the empty
update. -/
theorem humanReview_routing_total (s : EmailAgentState) (v : JSValue) :
    ((humanReview s v).gotoDest = "send_reply" ∨
      (humanReview s v).gotoDest = "__end__") ∧
    ((humanReviewDoc s v).gotoDest = "send_reply" ∨
      (humanReviewDoc s v).gotoDest = "__end__") ∧
    ((truthy v && isObjectType v && hasKey v "approved") = true →
      truthy (getField v "approved") = true →
      humanReview s v = ⟨"send_reply",
        some (jsOr (getField v "edited_response")
          (jsOfDraft s.draft_response))⟩ ∧
      humanReviewDoc s v = ⟨"send_reply",
        some (jsNullish (getField v "edited_response")
          (jsOfDraft s.draft_response))⟩) ∧
    ((truthy v && isObjectType v && hasKey v "approved") = true →
      truthy (getField v "approved") = false →
      humanReview s v = ⟨"__end__", none⟩ ∧
      humanReviewDoc s v = ⟨"__end__", none⟩) ∧
    ((truthy v && isObjectType v && hasKey v "approved") = false →
      humanReview s v = ⟨"send_reply", none⟩ ∧
      humanReviewDoc s v = ⟨"send_reply", none⟩) := by
  unfold humanReview humanReviewDoc
  cases hg : (truthy v && isObjectType v && hasKey v "approved") with
  | true =>
    cases ha : truthy (getField v "approved") with
    | true => simp [hg, ha]
    | false => simp [hg, ha]
  | false => simp [hg]

/-- Witness for the amended C9 at `v = {approved: true}` and a state with
an existing draft. -/
theorem humanReview_routing_total_witness :
    ((humanReview
        (EmailAgentState.mk "" "" "" none none none none (some "draft"))
        (JSValue.obj [("approved", JSValue.bool true)])).gotoDest =
      "send_reply" ∨
     (humanReview
        (EmailAgentState.mk "" "" "" none none none none (some "draft"))
        (JSValue.obj [("approved", JSValue.bool true)])).gotoDest =
      "__end__") ∧
    humanReview
      (EmailAgentState.mk "" "" "" none none none none (some "draft"))
      (JSValue.obj [("approved", JSValue.bool true)]) =
      ⟨"send_reply",
       some (jsOr (getField (JSValue.obj [("approved", JSValue.bool true)])
         "edited_response")
         (jsOfDraft (EmailAgentState.mk "" "" "" none none none none
           (some "draft")).draft_response))⟩ :=
  ⟨(humanReview_routing_total
      (EmailAgentState.mk "" "" "" none none none none (some "draft"))
      (JSValue.obj [("approved", JSValue.bool true)])).1,
   ((humanReview_routing_total
      (EmailAgentState.mk "" "" "" none none none none (some "draft"))
      (JSValue.obj [("approved", JSValue.bool true)])).2.2.1 rfl rfl).1⟩

end LGEssentials
